import Mathlib

/-!
Verification development for the `azure-search-client` batching/streaming core.

The embedding covers:

* the Batch Accumulator (`IndexBuffer`): its `add`/`flush` protocol.  The file
  `index-buffer.ts` itself is not part of the sources at hand; only its two
  callers (`search-index.ts`, `index-stream.ts`) are.  The accumulator's
  behaviour is therefore modelled from the specification (§4.1) and each such
  definition is marked `Modelled from the spec:` in its doc comment.  The
  construction sites visible in the sources are embedded as written there.
* the batch-mode indexing operation `SearchIndex.index`
  (`search-index.ts`, lines 153–175);
* the streaming adapter `IndexStream` (`index-stream.ts`): each written chunk
  is processed by `process`, which forwards it to `IndexBuffer.add` (or, on
  stream close, to `IndexBuffer.flush`) and hands the outcome to the
  transform callback, which pushes the (possibly empty) result list
  downstream or signals the error and stops the stream;
* the request shape used by both flush transports, and the date-reviving
  response parser shared by `search`, `suggest` and `lookup`.

Transport calls are modelled as a function `List Doc → Except E (List R)`;
every run additionally records the list of batches actually handed to the
transport, so that "no transport call was made" and "which batches were
attempted" are provable statements.
-/

/-- The batch limits governing an accumulator, together with the size
estimate used for documents (the serialized length of one document; in the
source, `JSON.stringify(document).length`). -/
structure BatchConfig (Doc : Type) where
  maxBatchCount : Nat
  maxBatchBytes : Nat
  size : Doc → Nat

/-- Modelled from the spec: the Accumulator's state — the ordered pending
batch and the running byte estimate (§3 `PendingBatch`). -/
structure IndexBuffer (Doc : Type) where
  pending : List Doc
  bytes : Nat
deriving DecidableEq, Repr

/-- A freshly constructed (or just-flushed) accumulator holds an empty
pending batch. -/
def IndexBuffer.emptyBuf {Doc : Type} : IndexBuffer Doc := ⟨[], 0⟩

/-- Appending one document to the pending batch, maintaining the running
size estimate incrementally (spec §4.1, size estimation). -/
def IndexBuffer.push {Doc : Type} (st : IndexBuffer Doc) (cfg : BatchConfig Doc)
    (d : Doc) : IndexBuffer Doc :=
  ⟨st.pending ++ [d], st.bytes + cfg.size d⟩

/-- Modelled from the spec: `flush()` (§4.1).  If the pending batch is
non-empty it is handed to the flush transport, the accumulator is reset to
empty, and the transport's results are returned; a transport failure
propagates unchanged.  If the pending batch is empty, the empty result list
is returned and no transport call is made.  The second component of the
result is the list of batches handed to the transport by this call (empty or
a single batch), recorded even when the transport fails. -/
def IndexBuffer.flush {Doc R E : Type} (tr : List Doc → Except E (List R))
    (st : IndexBuffer Doc) :
    Except E (List R × IndexBuffer Doc) × List (List Doc) :=
  if st.pending.isEmpty then (.ok ([], st), [])
  else
    match tr st.pending with
    | .ok rs => (.ok (rs, IndexBuffer.emptyBuf), [st.pending])
    | .error e => (.error e, [st.pending])

/-- Modelled from the spec: `add(operation)` (§4.1).  If appending the
document would breach the configured count or byte threshold, the current
pending batch is flushed first (yielding that flush's results) and the
document then starts a fresh batch; otherwise the document is appended and
the empty result list is returned.  A transport failure during the triggered
flush propagates unchanged.  The second component records the batches handed
to the transport by this call. -/
def IndexBuffer.add {Doc R E : Type} (cfg : BatchConfig Doc)
    (tr : List Doc → Except E (List R)) (st : IndexBuffer Doc) (d : Doc) :
    Except E (List R × IndexBuffer Doc) × List (List Doc) :=
  if cfg.maxBatchCount < st.pending.length + 1 ∨
      cfg.maxBatchBytes < st.bytes + cfg.size d then
    match IndexBuffer.flush tr st with
    | (.ok (rs, st'), log) => (.ok (rs, st'.push cfg d), log)
    | (.error e, log) => (.error e, log)
  else (.ok ([], st.push cfg d), [])

/-- Outcome of one batch-mode `index()` call: what the caller receives
(`outcome`), the batches handed to the transport in order (`sent`), and the
contents of the internal `results` array at the end of the run
(`collected`) — in the source the transport callback pushes
`resp.result.value` entries into a `results` array closed over by
`SearchIndex.index`. -/
structure IndexRunOut (Doc R E : Type) where
  outcome : Except E (List R)
  sent : List (List Doc)
  collected : List R
deriving Repr

/-- The loop body of `SearchIndex.index` (search-index.ts, lines 169–173):
each document is `await buffer.add(document)`-ed in input order; after the
last document `await buffer.flush()` drains the remainder.  Results produced
by any flush are appended to the running `results` array in the order
received; the first transport error rejects the whole operation and stops
further submission. -/
def SearchIndex.indexGo {Doc R E : Type} (cfg : BatchConfig Doc)
    (tr : List Doc → Except E (List R)) :
    List Doc → IndexBuffer Doc → IndexRunOut Doc R E
  | [], st =>
    match IndexBuffer.flush tr st with
    | (.ok (rs, _), log) => ⟨.ok rs, log, rs⟩
    | (.error e, log) => ⟨.error e, log, []⟩
  | d :: ds, st =>
    match IndexBuffer.add cfg tr st d with
    | (.ok (rs, st'), log) =>
      let out := SearchIndex.indexGo cfg tr ds st'
      ⟨out.outcome.map (fun ys => rs ++ ys), log ++ out.sent, rs ++ out.collected⟩
    | (.error e, log) => ⟨.error e, log, []⟩

/-- `SearchIndex.index` (search-index.ts, lines 153–175): drive the whole
document list through a fresh accumulator, then flush. -/
def SearchIndex.index {Doc R E : Type} (cfg : BatchConfig Doc)
    (tr : List Doc → Except E (List R)) (docs : List Doc) : IndexRunOut Doc R E :=
  SearchIndex.indexGo cfg tr docs IndexBuffer.emptyBuf

/-- Observable outcome of one `IndexStream` lifetime: the data chunks pushed
downstream in order (`emitted` — one chunk per processed write and one for
the close-triggered flush; the transform callback `cb(error, maybeResults)`
in `IndexStream.process` pushes `maybeResults` downstream whenever it is not
an error, including when it is the empty list), the terminal signal
(`none` = clean end-of-stream, `some e` = error signal, after which the
stream is destroyed and no further writes are processed), and the batches
handed to the transport (`sent`). -/
structure StreamRunOut (Doc R E : Type) where
  emitted : List (List R)
  terminal : Option E
  sent : List (List Doc)
deriving Repr

/-- The write phase of an `IndexStream` lifetime (index-stream.ts, lines
23–30 and 49–61): each written document is forwarded to `IndexBuffer.add`;
the returned result list is pushed downstream before the next write is
accepted, and a transport error is signalled downstream and stops the
stream.  Returns the buffer state on success (`.ok`) or the error
(`.error`), together with the emitted chunks and the batches handed to the
transport. -/
def IndexStream.writeAll {Doc R E : Type} (cfg : BatchConfig Doc)
    (tr : List Doc → Except E (List R)) :
    List Doc → IndexBuffer Doc →
    Except E (IndexBuffer Doc) × List (List R) × List (List Doc)
  | [], st => (.ok st, [], [])
  | d :: ds, st =>
    match IndexBuffer.add cfg tr st d with
    | (.ok (rs, st'), log) =>
      let out := IndexStream.writeAll cfg tr ds st'
      (out.1, rs :: out.2.1, log ++ out.2.2)
    | (.error e, log) => (.error e, [], log)

/-- A full `IndexStream` lifetime (index-stream.ts): the documents are
written one at a time and then the stream is closed, which triggers the
final `IndexBuffer.flush` (lines 31–38, 49–61); the final flush's result
list is pushed downstream and the stream ends cleanly, or the error is
signalled. -/
def IndexStream.run {Doc R E : Type} (cfg : BatchConfig Doc)
    (tr : List Doc → Except E (List R)) (writes : List Doc) :
    StreamRunOut Doc R E :=
  match IndexStream.writeAll cfg tr writes IndexBuffer.emptyBuf with
  | (.ok st, em, sd) =>
    match IndexBuffer.flush tr st with
    | (.ok (rs, _), log) => ⟨em ++ [rs], none, sd ++ log⟩
    | (.error e, log) => ⟨em, some e, sd ++ log⟩
  | (.error e, em, sd) => ⟨em, some e, sd⟩

/- Concrete fixtures used by closed counterexamples and witnesses. -/

/-- A batch configuration over `Nat` documents whose serialized size is the
document itself. -/
def natSizeCfg (c b : Nat) : BatchConfig Nat := ⟨c, b, fun n => n⟩

/-- A transport that always succeeds, answering each document `n` with the
result `n + 100`. -/
def okTransport : List Nat → Except Nat (List Nat) :=
  fun b => .ok (b.map (fun n => n + 100))

/-- A transport that fails (with error code 7) exactly on the batch `[2]`
and otherwise answers each document `n` with `n + 100`. -/
def failOnTwoTransport : List Nat → Except Nat (List Nat) :=
  fun b => if b = [2] then .error 7 else .ok (b.map (fun n => n + 100))

/-- A transport that fails (with error code 9) exactly on two-document
batches and otherwise answers each document `n` with `n + 100`. -/
def failOnPairTransport : List Nat → Except Nat (List Nat) :=
  fun b => if b.length = 2 then .error 9 else .ok (b.map (fun n => n + 100))

/- Construction of the accumulator at its two call sites. -/

/-- Modelled from the spec: the maximum operation count per flush — the
remote-service limit the spec cites as an example (`maxBatchCount`, §6);
`index-buffer.ts`, which holds the constant, is not among the sources. -/
def MAX_INDEXING_COUNT : Nat := 1000

/-- Modelled from the spec: the maximum estimated byte size per flush — the
remote-service limit the spec cites as an example (16 MB, §6);
`index-buffer.ts`, which holds the constant, is not among the sources. -/
def MAX_INDEXING_BYTES : Nat := 16 * 2 ^ 20

/-- The `IndexBuffer` constructor as invoked at its two call sites in the
sources (search-index.ts line 160, index-stream.ts line 10):
`new IndexBuffer(callback)` receives only the flush callback.  The `sz`
parameter stands for the ambient serialization-size measure
(`JSON.stringify(·).length`), not for caller configuration.  The
constructed instance is governed by the internal limits and starts with an
empty pending batch. -/
def IndexBuffer.new {Doc R E : Type} (sz : Doc → Nat)
    (_callback : List Doc → Except E (List R)) :
    BatchConfig Doc × IndexBuffer Doc :=
  (⟨MAX_INDEXING_COUNT, MAX_INDEXING_BYTES, sz⟩, IndexBuffer.emptyBuf)

/- The shape of the flush transport's HTTP request. -/

/-- An HTTP request record, after src (`SearchRequest` in the types file):
method, path, headers and body.  The `query`, `parser` and `callback`
fields, unused by the flush transports, are elided. -/
structure SearchRequest (Doc : Type) where
  method : String
  path : String
  headers : List (String × String)
  body : List Doc
deriving Repr, DecidableEq

/-- The per-document result collection in an indexing response, after src
(`IndexingResults`): the `value` list. -/
structure IndexingResults (R : Type) where
  value : List R
deriving Repr

/-- A transport-level response, after src (`AzureSearchResponse`): the
parsed result and the status code (the `properties` and `timer` metadata
fields, untouched by the modelled code, are elided). -/
structure AzureSearchResponse (T : Type) where
  result : T
  statusCode : Nat
deriving Repr

/-- The request built by the `IndexBuffer` callback inside
`SearchIndex.index` (search-index.ts, lines 160–166): POST to the
index-relative path `/docs/index` with a JSON content type and the batch as
body. -/
def SearchIndex.flushRequest {Doc : Type} (data : List Doc) : SearchRequest Doc :=
  ⟨"post", "/docs/index", [("content-type", "application/json")], data⟩

/-- The request built by the `IndexBuffer` callback inside
`IndexStream.buffer` (index-stream.ts, lines 10–16): identical to the
batch-mode one. -/
def IndexStream.flushRequest {Doc : Type} (data : List Doc) : SearchRequest Doc :=
  ⟨"post", "/docs/index", [("content-type", "application/json")], data⟩

/-- `IndexStream.request` (index-stream.ts, lines 44–47): the index-relative
path is prefixed with `/indexes/{name}` before the request is handed to the
requester. -/
def IndexStream.prefixRequest {Doc : Type} (index : String)
    (req : SearchRequest Doc) : SearchRequest Doc :=
  { req with path := "/indexes/" ++ index ++ req.path }

/-- Modelled from the spec: `SearchResource.request` (`search-resource.ts`
is not among the sources) routes a resource-relative request to
`/{type}/{name}{path}`; a `SearchIndex` is constructed with type
`"indexes"` and the index name (search-index.ts, lines 63–71). -/
def SearchResource.prefixRequest {Doc : Type} (type name : String)
    (req : SearchRequest Doc) : SearchRequest Doc :=
  { req with path := "/" ++ type ++ "/" ++ name ++ req.path }

/-- The flush transport of batch-mode indexing (search-index.ts, lines
160–168): issue the prefixed request through the requester and extract the
per-document results from `resp.result.value`. -/
def SearchIndex.flushTransport {Doc R E : Type}
    (requester : SearchRequest Doc → Except E (AzureSearchResponse (IndexingResults R)))
    (name : String) : List Doc → Except E (List R) :=
  fun data =>
    (requester (SearchResource.prefixRequest "indexes" name
      (SearchIndex.flushRequest data))).map (fun resp => resp.result.value)

/-- The flush transport of the indexing stream (index-stream.ts, lines
10–18 with 44–47): issue the prefixed request through the requester and
extract the per-document results from `resp.result.value`. -/
def IndexStream.flushTransport {Doc R E : Type}
    (requester : SearchRequest Doc → Except E (AzureSearchResponse (IndexingResults R)))
    (name : String) : List Doc → Except E (List R) :=
  fun data =>
    (requester (IndexStream.prefixRequest name
      (IndexStream.flushRequest data))).map (fun resp => resp.result.value)

/- Date revival in parsed responses (`search`, `suggest`, `lookup`). -/

/-- Consume exactly `n` ASCII digits from the front of `cs` (the `\d{n}`
pieces of `RE_DATE`), returning the remainder. -/
def digitsThen : Nat → List Char → Option (List Char)
  | 0, cs => some cs
  | _ + 1, [] => none
  | n + 1, c :: cs => if c.isDigit then digitsThen n cs else none

/-- Consume one expected literal character from the front of `cs`. -/
def expectChar (a : Char) : List Char → Option (List Char)
  | [] => none
  | c :: cs => if c = a then some cs else none

/-- The fractional-second group with the final `Z`: one to three digits
followed by a literal `Z`, then end of input (`\d{1,3}Z$`). -/
def fracDigitsZ : List Char → Bool
  | [a, z] => a.isDigit && (z == 'Z')
  | [a, b, z] => a.isDigit && b.isDigit && (z == 'Z')
  | [a, b, c, z] => a.isDigit && b.isDigit && c.isDigit && (z == 'Z')
  | _ => false

/-- The tail of `RE_DATE` after the seconds field: `(?:\.\d{1,3})?Z$` — an
optional fractional-second group of one to three digits, then a literal
`Z`, then end of input. -/
def fracTail : List Char → Bool
  | [z] => z == 'Z'
  | dot :: rest => (dot == '.') && fracDigitsZ rest
  | [] => false

/-- The date-time prefix of `RE_DATE`:
`^\d{4}-\d{2}-\d{2}T\d{2}:\d{2}:\d{2}` — returns the remaining input after
the seconds field. -/
def dateTimeTail (cs : List Char) : Option (List Char) :=
  digitsThen 4 cs >>= expectChar '-' >>= digitsThen 2 >>= expectChar '-' >>=
    digitsThen 2 >>= expectChar 'T' >>= digitsThen 2 >>= expectChar ':' >>=
    digitsThen 2 >>= expectChar ':' >>= digitsThen 2

/-- `RE_DATE.test` (search-index.ts, line 59):
`/^\d{4}-\d{2}-\d{2}T\d{2}:\d{2}:\d{2}(?:\.\d{1,3})?Z$/` applied to the
whole string. -/
def matchesDateRe (s : String) : Bool :=
  match dateTimeTail s.data with
  | some rest => fracTail rest
  | none => false

/-- The date-string shape as the specification of `RE_DATE` describes it:
four digits, `-`, two digits, `-`, two digits, `T`, two digits, `:`, two
digits, `:`, two digits, then either a literal trailing `Z` or a `.`, one
to three digits and the trailing `Z` — and nothing else. -/
def specDateShape (s : String) : Prop :=
  ∃ y mo d h mi sec frac : List Char,
    s.data = y ++ '-' :: (mo ++ '-' :: (d ++ 'T' ::
      (h ++ ':' :: (mi ++ ':' :: (sec ++ frac))))) ∧
    y.length = 4 ∧ mo.length = 2 ∧ d.length = 2 ∧
    h.length = 2 ∧ mi.length = 2 ∧ sec.length = 2 ∧
    (∀ c ∈ y ++ mo ++ d ++ h ++ mi ++ sec, c.isDigit) ∧
    (frac = ['Z'] ∨
      ∃ ds : List Char, frac = '.' :: (ds ++ ['Z']) ∧
        1 ≤ ds.length ∧ ds.length ≤ 3 ∧ ∀ c ∈ ds, c.isDigit)

/-- The options record controlling response parsing: `parseDates` is either
absent (`none`, the caller did not set it) or set by the caller. -/
def effectiveParseDates (parseDates : Option Bool) : Bool :=
  parseDates.getD true

mutual
/-- A parsed JSON response body: strings, numbers, booleans, null, arrays
and objects, plus the `date` constructor standing for a JavaScript `Date`
produced from the original string by the reviver. -/
inductive JsonValue where
  | str : String → JsonValue
  | date : String → JsonValue
  | num : Int → JsonValue
  | bool : Bool → JsonValue
  | null : JsonValue
  | arr : JsonList → JsonValue
  | obj : JsonObj → JsonValue
/-- The elements of a JSON array. -/
inductive JsonList where
  | nil : JsonList
  | cons : JsonValue → JsonList → JsonList
/-- The fields of a JSON object. -/
inductive JsonObj where
  | nil : JsonObj
  | cons : String → JsonValue → JsonObj → JsonObj
end

mutual
/-- The reviver installed by `search`, `suggest` and `lookup`
(search-index.ts, lines 94–99, 120–125 and 215–220), applied to every value
of the parsed response: when `parseDates` holds and the value is a string
whose entire text matches `RE_DATE`, the string is replaced by a `Date`
built from it; every other value is returned unchanged. -/
def reviveTree (parseDates : Bool) : JsonValue → JsonValue
  | .str s =>
    if parseDates && matchesDateRe s then .date s else .str s
  | .arr xs => .arr (reviveList parseDates xs)
  | .obj fs => .obj (reviveObj parseDates fs)
  | v => v
/-- The reviver applied to each element of an array. -/
def reviveList (parseDates : Bool) : JsonList → JsonList
  | .nil => .nil
  | .cons v vs => .cons (reviveTree parseDates v) (reviveList parseDates vs)
/-- The reviver applied to each field value of an object. -/
def reviveObj (parseDates : Bool) : JsonObj → JsonObj
  | .nil => .nil
  | .cons k v fs => .cons k (reviveTree parseDates v) (reviveObj parseDates fs)
end

/- Batch bound predicates. -/

/-- The bound every flushed batch must satisfy: at most `maxBatchCount`
operations and at most `maxBatchBytes` estimated bytes — except a batch
consisting of exactly one document whose own size already exceeds
`maxBatchBytes`. -/
def BatchWithinLimits {Doc : Type} (cfg : BatchConfig Doc) (b : List Doc) : Prop :=
  (b.length ≤ cfg.maxBatchCount ∧ (b.map cfg.size).sum ≤ cfg.maxBatchBytes) ∨
    ∃ d, b = [d] ∧ cfg.maxBatchBytes < cfg.size d

/-- The accumulator's state invariant: the pending batch respects the count
cap, the running byte estimate is the sum of the pending documents' sizes,
and the byte estimate respects the byte cap unless the pending batch is a
single oversized document. -/
def BufInv {Doc : Type} (cfg : BatchConfig Doc) (st : IndexBuffer Doc) : Prop :=
  st.pending.length ≤ cfg.maxBatchCount ∧
    st.bytes = (st.pending.map cfg.size).sum ∧
    ((st.pending.map cfg.size).sum ≤ cfg.maxBatchBytes ∨
      ∃ d, st.pending = [d] ∧ cfg.maxBatchBytes < cfg.size d)

/- Case-analysis lemmas for the accumulator. -/

/-- Flushing an empty accumulator returns the empty result list, leaves the
state unchanged and records no transport call. -/
lemma IndexBuffer.flush_empty_pending {Doc R E : Type}
    (tr : List Doc → Except E (List R)) (st : IndexBuffer Doc)
    (h : st.pending = []) :
    IndexBuffer.flush tr st = (.ok ([], st), []) := by
  simp [IndexBuffer.flush, h]

/-- Flushing a non-empty accumulator whose batch the transport accepts
returns the transport's results, resets the state and records the one
transport call. -/
lemma IndexBuffer.flush_ok_of {Doc R E : Type}
    (tr : List Doc → Except E (List R)) (st : IndexBuffer Doc) (rs : List R)
    (h : st.pending ≠ []) (htr : tr st.pending = .ok rs) :
    IndexBuffer.flush tr st = (.ok (rs, IndexBuffer.emptyBuf), [st.pending]) := by
  simp [IndexBuffer.flush, List.isEmpty_iff, h, htr]

/-- Flushing a non-empty accumulator whose batch the transport rejects
propagates the error and records the attempted transport call. -/
lemma IndexBuffer.flush_error_of {Doc R E : Type}
    (tr : List Doc → Except E (List R)) (st : IndexBuffer Doc) (e : E)
    (h : st.pending ≠ []) (htr : tr st.pending = .error e) :
    IndexBuffer.flush tr st = (.error e, [st.pending]) := by
  simp [IndexBuffer.flush, List.isEmpty_iff, h, htr]

/-- Every `add` call has one of three observable shapes: append with no
transport call; a triggered flush that the transport accepts, after which
the document starts a fresh batch; or a triggered flush that the transport
rejects. -/
lemma IndexBuffer.add_shape {Doc R E : Type} (cfg : BatchConfig Doc)
    (tr : List Doc → Except E (List R)) (st : IndexBuffer Doc) (d : Doc) :
    IndexBuffer.add cfg tr st d = (.ok ([], st.push cfg d), []) ∨
    (∃ rs, st.pending ≠ [] ∧ tr st.pending = .ok rs ∧
      IndexBuffer.add cfg tr st d =
        (.ok (rs, IndexBuffer.emptyBuf.push cfg d), [st.pending])) ∨
    (∃ e, st.pending ≠ [] ∧ tr st.pending = .error e ∧
      IndexBuffer.add cfg tr st d = (.error e, [st.pending])) := by
  by_cases hb : cfg.maxBatchCount < st.pending.length + 1 ∨
      cfg.maxBatchBytes < st.bytes + cfg.size d
  · by_cases hp : st.pending = []
    · left
      simp [IndexBuffer.add, hb, IndexBuffer.flush_empty_pending tr st hp]
    · cases htr : tr st.pending with
      | ok rs =>
        right; left
        refine ⟨rs, hp, rfl, ?_⟩
        simp [IndexBuffer.add, hb, IndexBuffer.flush_ok_of tr st rs hp htr]
      | error e =>
        right; right
        refine ⟨e, hp, rfl, ?_⟩
        simp [IndexBuffer.add, hb, IndexBuffer.flush_error_of tr st e hp htr]
  · left
    simp [IndexBuffer.add, hb]

/- Completeness and ordering of the batch-mode operation. -/

/-- If every batch the transport accepts is answered by the in-order,
one-result-per-document list, then a successful run of the indexing loop
returns exactly the per-document results of the still-pending documents
followed by the remaining documents, in order. -/
lemma SearchIndex.indexGo_outcome_ok {Doc R E : Type} (cfg : BatchConfig Doc)
    (tr : List Doc → Except E (List R)) (f : Doc → R)
    (htr : ∀ b rs, tr b = .ok rs → rs = b.map f) :
    ∀ (ds : List Doc) (st : IndexBuffer Doc) (out : List R),
      (SearchIndex.indexGo cfg tr ds st).outcome = .ok out →
      out = (st.pending ++ ds).map f := by
  intro ds
  induction ds with
  | nil =>
    intro st out h
    by_cases hp : st.pending = []
    · simp [SearchIndex.indexGo, IndexBuffer.flush_empty_pending tr st hp] at h
      simp [hp, ← h]
    · cases htr' : tr st.pending with
      | ok rs =>
        simp [SearchIndex.indexGo,
          IndexBuffer.flush_ok_of tr st rs hp htr'] at h
        simp [← h, htr st.pending rs htr']
      | error e =>
        simp [SearchIndex.indexGo,
          IndexBuffer.flush_error_of tr st e hp htr'] at h
  | cons d ds ih =>
    intro st out h
    rcases IndexBuffer.add_shape cfg tr st d with hA | ⟨rs, hp, htr', hA⟩
      | ⟨e, hp, htr', hA⟩
    · simp only [SearchIndex.indexGo, hA] at h
      cases ho : (SearchIndex.indexGo cfg tr ds (st.push cfg d)).outcome with
      | ok out' =>
        simp [ho, Except.map] at h
        have := ih (st.push cfg d) out' ho
        simp only [IndexBuffer.push] at this
        simp [← h, this, List.append_assoc]
      | error e => simp [ho, Except.map] at h
    · simp only [SearchIndex.indexGo, hA] at h
      cases ho : (SearchIndex.indexGo cfg tr ds
          (IndexBuffer.emptyBuf.push cfg d)).outcome with
      | ok out' =>
        simp [ho, Except.map] at h
        have := ih (IndexBuffer.emptyBuf.push cfg d) out' ho
        simp only [IndexBuffer.push, IndexBuffer.emptyBuf] at this
        simp [← h, this, htr st.pending rs htr']
      | error e => simp [ho, Except.map] at h
    · simp [SearchIndex.indexGo, hA] at h

/-- C1.  For every finite document list driven through the batch-mode
operation `SearchIndex.index` with a transport that answers each accepted
batch with its in-order per-document results (`f` gives the result of each
submitted document, as the remote's per-flush correlation invariant
guarantees), a run that completes without a transport error returns exactly
one result per submitted document — the aggregated list is the in-order
image of the submitted documents, so its length equals the number of
documents and the ordinal sequence of results across all flushes equals the
ordinal sequence of the submitted operations. -/
theorem SearchIndex.index_complete_ordered {Doc R E : Type}
    (cfg : BatchConfig Doc) (tr : List Doc → Except E (List R))
    (docs : List Doc) (f : Doc → R) (out : List R)
    (htr : ∀ b rs, tr b = .ok rs → rs = b.map f)
    (hout : (SearchIndex.index cfg tr docs).outcome = .ok out) :
    out = docs.map f ∧ out.length = docs.length := by
  have h := SearchIndex.indexGo_outcome_ok cfg tr f htr docs
    IndexBuffer.emptyBuf out hout
  simp only [IndexBuffer.emptyBuf, List.nil_append] at h
  exact ⟨h, by simp [h]⟩

/-- Witness for C1: three documents through batch limits `(2, 1000)` with a
conforming transport yield the three in-order results. -/
theorem SearchIndex.index_complete_ordered_witness :
    ([101, 102, 103] : List Nat) = [1, 2, 3].map (fun n => n + 100) ∧
      ([101, 102, 103] : List Nat).length = [1, 2, 3].length :=
  SearchIndex.index_complete_ordered (natSizeCfg 2 1000) okTransport
    [1, 2, 3] (fun n => n + 100) [101, 102, 103]
    (fun _ _ h => (Except.ok.inj h).symm) rfl

/- The batch-bound invariant. -/

/-- The empty accumulator satisfies the invariant. -/
lemma BufInv.emptyBuf {Doc : Type} (cfg : BatchConfig Doc) :
    BufInv cfg (@IndexBuffer.emptyBuf Doc) := by
  simp [BufInv, IndexBuffer.emptyBuf]

/-- A fresh batch holding a single just-added document satisfies the
invariant (oversized documents fall into the exceptional disjunct). -/
lemma BufInv.singleton {Doc : Type} (cfg : BatchConfig Doc) (d : Doc)
    (hc : 1 ≤ cfg.maxBatchCount) :
    BufInv cfg (IndexBuffer.emptyBuf.push cfg d) := by
  rcases le_or_lt (cfg.size d) cfg.maxBatchBytes with hle | hlt
  · exact ⟨by simpa [IndexBuffer.push, IndexBuffer.emptyBuf] using hc,
      by simp [IndexBuffer.push, IndexBuffer.emptyBuf],
      Or.inl (by simpa [IndexBuffer.push, IndexBuffer.emptyBuf] using hle)⟩
  · exact ⟨by simpa [IndexBuffer.push, IndexBuffer.emptyBuf] using hc,
      by simp [IndexBuffer.push, IndexBuffer.emptyBuf],
      Or.inr ⟨d, by simp [IndexBuffer.push, IndexBuffer.emptyBuf], hlt⟩⟩

/-- A successful `add` preserves the invariant. -/
lemma BufInv.add {Doc R E : Type} (cfg : BatchConfig Doc)
    (tr : List Doc → Except E (List R)) (st : IndexBuffer Doc) (d : Doc)
    (rs : List R) (st' : IndexBuffer Doc) (log : List (List Doc))
    (hc : 1 ≤ cfg.maxBatchCount) (hinv : BufInv cfg st)
    (h : IndexBuffer.add cfg tr st d = (.ok (rs, st'), log)) :
    BufInv cfg st' := by
  by_cases hb : cfg.maxBatchCount < st.pending.length + 1 ∨
      cfg.maxBatchBytes < st.bytes + cfg.size d
  · by_cases hp : st.pending = []
    · have hst : st = IndexBuffer.emptyBuf := by
        have hb0 : st.bytes = 0 := by rw [hinv.2.1, hp]; rfl
        calc st = ⟨st.pending, st.bytes⟩ := rfl
          _ = IndexBuffer.emptyBuf := by rw [hp, hb0]; rfl
      rw [IndexBuffer.add] at h
      simp only [hb, if_pos] at h
      rw [IndexBuffer.flush_empty_pending tr st hp] at h
      have hst' : st' = st.push cfg d := by
        have := congrArg Prod.fst h
        simp at this
        exact this.2.symm
      rw [hst', hst]
      exact BufInv.singleton cfg d hc
    · cases htr : tr st.pending with
      | ok rs' =>
        rw [IndexBuffer.add] at h
        simp only [hb, if_pos] at h
        rw [IndexBuffer.flush_ok_of tr st rs' hp htr] at h
        have hst' : st' = IndexBuffer.emptyBuf.push cfg d := by
          have := congrArg Prod.fst h
          simp at this
          exact this.2.symm
        rw [hst']
        exact BufInv.singleton cfg d hc
      | error e =>
        rw [IndexBuffer.add] at h
        simp only [hb, if_pos] at h
        rw [IndexBuffer.flush_error_of tr st e hp htr] at h
        simp at h
  · rw [IndexBuffer.add] at h
    simp only [hb, if_neg, not_false_iff] at h
    have hst' : st' = st.push cfg d := by
      have := congrArg Prod.fst h
      simp at this
      exact this.2.symm
    push_neg at hb
    refine hst' ▸ ⟨?_, ?_, Or.inl ?_⟩
    · simpa [IndexBuffer.push] using hb.1
    · simp [IndexBuffer.push, hinv.2.1, List.map_append]
    · have : st.bytes + cfg.size d ≤ cfg.maxBatchBytes := hb.2
      simpa [IndexBuffer.push, List.map_append, ← hinv.2.1] using this

/-- An invariant-satisfying pending batch satisfies the flushed-batch
bound. -/
lemma BufInv.batchOk {Doc : Type} (cfg : BatchConfig Doc)
    (st : IndexBuffer Doc) (hinv : BufInv cfg st) :
    BatchWithinLimits cfg st.pending := by
  rcases hinv with ⟨h1, _, h3 | ⟨d, hd, hlt⟩⟩
  · exact Or.inl ⟨h1, h3⟩
  · exact Or.inr ⟨d, hd, hlt⟩

/-- Every batch a `flush` call hands to the transport is the pending batch
it was called with. -/
lemma IndexBuffer.flush_log {Doc R E : Type}
    (tr : List Doc → Except E (List R)) (st : IndexBuffer Doc)
    (o : Except E (List R × IndexBuffer Doc)) (log : List (List Doc))
    (h : IndexBuffer.flush tr st = (o, log)) :
    ∀ b ∈ log, b = st.pending := by
  by_cases hp : st.pending = []
  · rw [IndexBuffer.flush_empty_pending tr st hp] at h
    injection h with h1 h2
    simp [← h2]
  · cases htr : tr st.pending with
    | ok rs =>
      rw [IndexBuffer.flush_ok_of tr st rs hp htr] at h
      injection h with h1 h2
      simp [← h2]
    | error e =>
      rw [IndexBuffer.flush_error_of tr st e hp htr] at h
      injection h with h1 h2
      simp [← h2]

/-- Every batch an `add` call hands to the transport is the pending batch
it was called with. -/
lemma IndexBuffer.add_log {Doc R E : Type} (cfg : BatchConfig Doc)
    (tr : List Doc → Except E (List R)) (st : IndexBuffer Doc) (d : Doc)
    (o : Except E (List R × IndexBuffer Doc)) (log : List (List Doc))
    (h : IndexBuffer.add cfg tr st d = (o, log)) :
    ∀ b ∈ log, b = st.pending := by
  rcases IndexBuffer.add_shape cfg tr st d with hA | ⟨rs, _, _, hA⟩
    | ⟨e, _, _, hA⟩ <;> rw [hA] at h <;> injection h with h1 h2 <;> simp [← h2]

/-- All batches the batch-mode indexing loop hands to the transport satisfy
the batch bound, provided the accumulator starts in an invariant state. -/
lemma SearchIndex.indexGo_sent_bounded {Doc R E : Type} (cfg : BatchConfig Doc)
    (tr : List Doc → Except E (List R)) (hc : 1 ≤ cfg.maxBatchCount) :
    ∀ (ds : List Doc) (st : IndexBuffer Doc), BufInv cfg st →
      ∀ b ∈ (SearchIndex.indexGo cfg tr ds st).sent, BatchWithinLimits cfg b := by
  intro ds
  induction ds with
  | nil =>
    intro st hinv b hb
    rcases hf : IndexBuffer.flush tr st with ⟨o, log⟩
    have hsent : (SearchIndex.indexGo cfg tr ([] : List Doc) st).sent = log := by
      cases o with
      | ok p => rcases p with ⟨rs, st₂⟩; simp [SearchIndex.indexGo, hf]
      | error e => simp [SearchIndex.indexGo, hf]
    rw [hsent] at hb
    exact IndexBuffer.flush_log tr st o log hf b hb ▸ BufInv.batchOk cfg st hinv
  | cons d ds ih =>
    intro st hinv b hb
    rcases ha : IndexBuffer.add cfg tr st d with ⟨o, log⟩
    cases o with
    | ok p =>
      rcases p with ⟨rs, st'⟩
      have hsent : (SearchIndex.indexGo cfg tr (d :: ds) st).sent =
          log ++ (SearchIndex.indexGo cfg tr ds st').sent := by
        simp [SearchIndex.indexGo, ha]
      rw [hsent] at hb
      rcases List.mem_append.mp hb with hL | hR
      · exact IndexBuffer.add_log cfg tr st d _ log ha b hL ▸
          BufInv.batchOk cfg st hinv
      · exact ih st' (BufInv.add cfg tr st d rs st' log hc hinv ha) b hR
    | error e =>
      have hsent : (SearchIndex.indexGo cfg tr (d :: ds) st).sent = log := by
        simp [SearchIndex.indexGo, ha]
      rw [hsent] at hb
      exact IndexBuffer.add_log cfg tr st d _ log ha b hb ▸
        BufInv.batchOk cfg st hinv

/-- All batches the write phase of a stream hands to the transport satisfy
the batch bound, and a successful write phase preserves the invariant. -/
lemma IndexStream.writeAll_inv_sent {Doc R E : Type} (cfg : BatchConfig Doc)
    (tr : List Doc → Except E (List R)) (hc : 1 ≤ cfg.maxBatchCount) :
    ∀ (ds : List Doc) (st : IndexBuffer Doc), BufInv cfg st →
      (∀ b ∈ (IndexStream.writeAll cfg tr ds st).2.2, BatchWithinLimits cfg b) ∧
      (∀ st', (IndexStream.writeAll cfg tr ds st).1 = .ok st' → BufInv cfg st') := by
  intro ds
  induction ds with
  | nil =>
    intro st hinv
    refine ⟨by simp [IndexStream.writeAll], fun st' h => ?_⟩
    simp [IndexStream.writeAll] at h
    exact h ▸ hinv
  | cons d ds ih =>
    intro st hinv
    rcases ha : IndexBuffer.add cfg tr st d with ⟨o, log⟩
    cases o with
    | ok p =>
      rcases p with ⟨rs, st'⟩
      have hinv' := BufInv.add cfg tr st d rs st' log hc hinv ha
      constructor
      · intro b hb
        have hsent : (IndexStream.writeAll cfg tr (d :: ds) st).2.2 =
            log ++ (IndexStream.writeAll cfg tr ds st').2.2 := by
          simp [IndexStream.writeAll, ha]
        rw [hsent] at hb
        rcases List.mem_append.mp hb with hL | hR
        · exact IndexBuffer.add_log cfg tr st d _ log ha b hL ▸
            BufInv.batchOk cfg st hinv
        · exact (ih st' hinv').1 b hR
      · intro st'' h
        have hfst : (IndexStream.writeAll cfg tr (d :: ds) st).1 =
            (IndexStream.writeAll cfg tr ds st').1 := by
          simp [IndexStream.writeAll, ha]
        rw [hfst] at h
        exact (ih st' hinv').2 st'' h
    | error e =>
      constructor
      · intro b hb
        have hsent : (IndexStream.writeAll cfg tr (d :: ds) st).2.2 = log := by
          simp [IndexStream.writeAll, ha]
        rw [hsent] at hb
        exact IndexBuffer.add_log cfg tr st d _ log ha b hb ▸
          BufInv.batchOk cfg st hinv
      · intro st'' h
        have hfst : (IndexStream.writeAll cfg tr (d :: ds) st).1 = .error e := by
          simp [IndexStream.writeAll, ha]
        rw [hfst] at h
        exact absurd h (by simp)

/-- The one batch handed to the transport by a successful `flush` is the
pending batch (none when it was empty): the joined log is the pending
batch. -/
lemma IndexBuffer.flush_ok_log_join {Doc R E : Type}
    (tr : List Doc → Except E (List R)) (st : IndexBuffer Doc)
    (p : List R × IndexBuffer Doc) (log : List (List Doc))
    (h : IndexBuffer.flush tr st = (.ok p, log)) :
    log.flatten = st.pending := by
  by_cases hp : st.pending = []
  · rw [IndexBuffer.flush_empty_pending tr st hp] at h
    injection h with h1 h2
    simp [← h2, hp]
  · cases htr : tr st.pending with
    | ok rs =>
      rw [IndexBuffer.flush_ok_of tr st rs hp htr] at h
      injection h with h1 h2
      simp [← h2]
    | error e =>
      rw [IndexBuffer.flush_error_of tr st e hp htr] at h
      injection h with h1 h2
      simp at h1

/-- On a successful batch-mode run, the batches handed to the transport
joined together are exactly the pending documents followed by the remaining
input, in order: nothing is dropped, duplicated or reordered. -/
lemma SearchIndex.indexGo_ok_join {Doc R E : Type} (cfg : BatchConfig Doc)
    (tr : List Doc → Except E (List R)) :
    ∀ (ds : List Doc) (st : IndexBuffer Doc) (out : List R),
      (SearchIndex.indexGo cfg tr ds st).outcome = .ok out →
      (SearchIndex.indexGo cfg tr ds st).sent.flatten = st.pending ++ ds := by
  intro ds
  induction ds with
  | nil =>
    intro st out h
    by_cases hp : st.pending = []
    · simp [SearchIndex.indexGo, IndexBuffer.flush_empty_pending tr st hp, hp]
    · cases htr : tr st.pending with
      | ok rs =>
        simp [SearchIndex.indexGo, IndexBuffer.flush_ok_of tr st rs hp htr]
      | error e =>
        simp [SearchIndex.indexGo,
          IndexBuffer.flush_error_of tr st e hp htr] at h
  | cons d ds ih =>
    intro st out h
    rcases IndexBuffer.add_shape cfg tr st d with hA | ⟨rs, hp, htr', hA⟩
      | ⟨e, hp, htr', hA⟩
    · simp only [SearchIndex.indexGo, hA] at h ⊢
      cases ho : (SearchIndex.indexGo cfg tr ds (st.push cfg d)).outcome with
      | ok out' =>
        have := ih (st.push cfg d) out' ho
        simp only [IndexBuffer.push] at this ⊢
        simp [this, List.append_assoc]
      | error e => simp [ho, Except.map] at h
    · simp only [SearchIndex.indexGo, hA] at h ⊢
      cases ho : (SearchIndex.indexGo cfg tr ds
          (IndexBuffer.emptyBuf.push cfg d)).outcome with
      | ok out' =>
        have := ih (IndexBuffer.emptyBuf.push cfg d) out' ho
        simpa [IndexBuffer.push, IndexBuffer.emptyBuf, List.append_assoc]
          using this
      | error e => simp [ho, Except.map] at h
    · simp [SearchIndex.indexGo, hA] at h

/-- On a successful write phase, the batches handed to the transport joined
with the still-pending batch are exactly the pending documents followed by
the written documents, in order. -/
lemma IndexStream.writeAll_ok_join {Doc R E : Type} (cfg : BatchConfig Doc)
    (tr : List Doc → Except E (List R)) :
    ∀ (ds : List Doc) (st st' : IndexBuffer Doc) (em : List (List R))
      (sd : List (List Doc)),
      IndexStream.writeAll cfg tr ds st = (.ok st', em, sd) →
      sd.flatten ++ st'.pending = st.pending ++ ds := by
  intro ds
  induction ds with
  | nil =>
    intro st st' em sd h
    simp only [IndexStream.writeAll] at h
    injection h with h1 h2
    injection h2 with h2 h3
    injection h1 with h1
    simp [← h1, ← h3]
  | cons d ds ih =>
    intro st st' em sd h
    rcases IndexBuffer.add_shape cfg tr st d with hA | ⟨rs, hp, htr', hA⟩
      | ⟨e, hp, htr', hA⟩
    · simp only [IndexStream.writeAll, hA] at h
      injection h with h1 h2
      injection h2 with h2 h3
      have := ih (st.push cfg d) st'
        (IndexStream.writeAll cfg tr ds (st.push cfg d)).2.1
        (IndexStream.writeAll cfg tr ds (st.push cfg d)).2.2
        (by rw [← h1])
      rw [← h3]
      simpa [IndexBuffer.push, IndexBuffer.emptyBuf, List.append_assoc]
        using this
    · simp only [IndexStream.writeAll, hA] at h
      injection h with h1 h2
      injection h2 with h2 h3
      have := ih (IndexBuffer.emptyBuf.push cfg d) st'
        (IndexStream.writeAll cfg tr ds (IndexBuffer.emptyBuf.push cfg d)).2.1
        (IndexStream.writeAll cfg tr ds (IndexBuffer.emptyBuf.push cfg d)).2.2
        (by rw [← h1])
      rw [← h3]
      simpa [IndexBuffer.push, IndexBuffer.emptyBuf, List.append_assoc]
        using this
    · simp only [IndexStream.writeAll, hA] at h
      injection h with h1 h2
      simp at h1

/-- All batches a whole stream lifetime hands to the transport satisfy the
batch bound. -/
lemma IndexStream.run_sent_bounded {Doc R E : Type} (cfg : BatchConfig Doc)
    (tr : List Doc → Except E (List R)) (ws : List Doc)
    (hc : 1 ≤ cfg.maxBatchCount) :
    ∀ b ∈ (IndexStream.run cfg tr ws).sent, BatchWithinLimits cfg b := by
  intro b hb
  have hW := IndexStream.writeAll_inv_sent cfg tr hc ws IndexBuffer.emptyBuf
    (BufInv.emptyBuf cfg)
  rcases hw : IndexStream.writeAll cfg tr ws IndexBuffer.emptyBuf with ⟨o, em, sd⟩
  rw [hw] at hW
  cases o with
  | ok st₁ =>
    have hinv₁ : BufInv cfg st₁ := hW.2 st₁ rfl
    rcases hf : IndexBuffer.flush tr st₁ with ⟨o₂, log⟩
    have hsent : (IndexStream.run cfg tr ws).sent = sd ++ log := by
      cases o₂ with
      | ok p => rcases p with ⟨rs, st₂⟩; simp [IndexStream.run, hw, hf]
      | error e => simp [IndexStream.run, hw, hf]
    rw [hsent] at hb
    rcases List.mem_append.mp hb with hL | hR
    · exact hW.1 b hL
    · exact IndexBuffer.flush_log tr st₁ o₂ log hf b hR ▸
        BufInv.batchOk cfg st₁ hinv₁
  | error e =>
    have hsent : (IndexStream.run cfg tr ws).sent = sd := by
      simp [IndexStream.run, hw]
    rw [hsent] at hb
    exact hW.1 b hb

/-- A stream lifetime that ends cleanly has handed every written document
to the transport, in order, across its batches. -/
lemma IndexStream.run_clean_join {Doc R E : Type} (cfg : BatchConfig Doc)
    (tr : List Doc → Except E (List R)) (ws : List Doc)
    (hterm : (IndexStream.run cfg tr ws).terminal = none) :
    (IndexStream.run cfg tr ws).sent.flatten = ws := by
  rcases hw : IndexStream.writeAll cfg tr ws IndexBuffer.emptyBuf with ⟨o, em, sd⟩
  cases o with
  | ok st₁ =>
    rcases hf : IndexBuffer.flush tr st₁ with ⟨o₂, log⟩
    cases o₂ with
    | ok p =>
      rcases p with ⟨rs, st₂⟩
      have hsent : (IndexStream.run cfg tr ws).sent = sd ++ log := by
        simp [IndexStream.run, hw, hf]
      have hjoin := IndexStream.writeAll_ok_join cfg tr ws
        IndexBuffer.emptyBuf st₁ em sd hw
      have hlog := IndexBuffer.flush_ok_log_join tr st₁ (rs, st₂) log hf
      rw [hsent, List.flatten_append, hlog]
      simpa [IndexBuffer.emptyBuf] using hjoin
    | error e =>
      have : (IndexStream.run cfg tr ws).terminal = some e := by
        simp [IndexStream.run, hw, hf]
      rw [this] at hterm
      exact absurd hterm (by simp)
  | error e =>
    have : (IndexStream.run cfg tr ws).terminal = some e := by
      simp [IndexStream.run, hw]
    rw [this] at hterm
    exact absurd hterm (by simp)

/-- C2.  For every sequence of documents submitted through the
Accumulator's `add` — whether driven by the batch-mode operation
`SearchIndex.index` or by a whole stream lifetime `IndexStream.run` — every
batch handed to the Flush Transport has at most `maxBatchCount` operations
and at most `maxBatchBytes` estimated bytes, with the single exception of a
batch consisting of exactly one document whose own size already exceeds
`maxBatchBytes` (`BatchWithinLimits`); and on a run without transport
failure the flushed batches joined together are exactly the submitted
documents — an oversized document is still flushed (alone, by the batch
bound), never dropped or rejected. -/
theorem IndexBuffer.batches_bounded {Doc R E : Type} (cfg : BatchConfig Doc)
    (tr : List Doc → Except E (List R)) (docs : List Doc)
    (hc : 1 ≤ cfg.maxBatchCount) :
    (∀ b ∈ (SearchIndex.index cfg tr docs).sent, BatchWithinLimits cfg b) ∧
    (∀ b ∈ (IndexStream.run cfg tr docs).sent, BatchWithinLimits cfg b) ∧
    (∀ out, (SearchIndex.index cfg tr docs).outcome = .ok out →
      (SearchIndex.index cfg tr docs).sent.flatten = docs) ∧
    ((IndexStream.run cfg tr docs).terminal = none →
      (IndexStream.run cfg tr docs).sent.flatten = docs) := by
  refine ⟨?_, ?_, ?_, ?_⟩
  · exact fun b hb => SearchIndex.indexGo_sent_bounded cfg tr hc docs
      IndexBuffer.emptyBuf (BufInv.emptyBuf cfg) b hb
  · exact IndexStream.run_sent_bounded cfg tr docs hc
  · intro out hout
    have := SearchIndex.indexGo_ok_join cfg tr docs IndexBuffer.emptyBuf out hout
    simpa [IndexBuffer.emptyBuf] using this
  · exact IndexStream.run_clean_join cfg tr docs

/-- Witness for C2: with limits `(2, 1000)` the 5000-byte document is
flushed alone as an oversized singleton batch, and the three submitted
documents are exactly the flushed batches joined together. -/
theorem IndexBuffer.batches_bounded_witness :
    BatchWithinLimits (natSizeCfg 2 1000) [5000] ∧
      (SearchIndex.index (natSizeCfg 2 1000) okTransport
        [1, 5000, 2]).sent.flatten = [1, 5000, 2] := by
  have h := IndexBuffer.batches_bounded (natSizeCfg 2 1000) okTransport
    [1, 5000, 2] (by decide)
  refine ⟨h.1 [5000] ?_, h.2.2.1 [101, 5100, 102] rfl⟩
  show [5000] ∈ (SearchIndex.index (natSizeCfg 2 1000) okTransport
    [1, 5000, 2]).sent
  have hsent : (SearchIndex.index (natSizeCfg 2 1000) okTransport
      [1, 5000, 2]).sent = [[1], [5000], [2]] := rfl
  rw [hsent]
  simp

/- Failure isolation of the batch-mode operation. -/

/-- When a run of the indexing loop fails, its transport calls are a block
of accepted batches followed by exactly one rejected batch whose error is
the returned one; the internal results array holds exactly the accepted
batches' results; and the documents handed to the transport form a prefix
of the pending-plus-remaining documents. -/
lemma SearchIndex.indexGo_error {Doc R E : Type} (cfg : BatchConfig Doc)
    (tr : List Doc → Except E (List R)) :
    ∀ (ds : List Doc) (st : IndexBuffer Doc) (e : E),
      (SearchIndex.indexGo cfg tr ds st).outcome = .error e →
      ∃ bs b rss,
        (SearchIndex.indexGo cfg tr ds st).sent = bs ++ [b] ∧
        tr b = .error e ∧
        List.Forall₂ (fun b' rs => tr b' = .ok rs) bs rss ∧
        (SearchIndex.indexGo cfg tr ds st).collected = rss.flatten ∧
        (bs ++ [b]).flatten <+: st.pending ++ ds := by
  intro ds
  induction ds with
  | nil =>
    intro st e h
    by_cases hp : st.pending = []
    · simp [SearchIndex.indexGo, IndexBuffer.flush_empty_pending tr st hp] at h
    · cases htr : tr st.pending with
      | ok rs =>
        simp [SearchIndex.indexGo,
          IndexBuffer.flush_ok_of tr st rs hp htr] at h
      | error e' =>
        have he : e' = e := by
          simpa [SearchIndex.indexGo,
            IndexBuffer.flush_error_of tr st e' hp htr] using h
        refine ⟨[], st.pending, [], ?_, he ▸ htr, List.Forall₂.nil, ?_, ?_⟩
        · simp [SearchIndex.indexGo,
            IndexBuffer.flush_error_of tr st e' hp htr]
        · simp [SearchIndex.indexGo,
            IndexBuffer.flush_error_of tr st e' hp htr]
        · simp
  | cons d ds ih =>
    intro st e h
    rcases IndexBuffer.add_shape cfg tr st d with hA | ⟨rs, hp, htr', hA⟩
      | ⟨e', hp, htr', hA⟩
    · simp only [SearchIndex.indexGo, hA] at h ⊢
      cases ho : (SearchIndex.indexGo cfg tr ds (st.push cfg d)).outcome with
      | ok out' => simp [ho, Except.map] at h
      | error e'' =>
        have he : e'' = e := by simpa [ho, Except.map] using h
        obtain ⟨bs, b, rss, hsent, htrb, hfa, hcol, hpre⟩ :=
          ih (st.push cfg d) e'' ho
        refine ⟨bs, b, rss, by simpa using hsent, he ▸ htrb, hfa,
          by simpa using hcol, ?_⟩
        simp only [IndexBuffer.push] at hpre
        simpa [List.append_assoc] using hpre
    · simp only [SearchIndex.indexGo, hA] at h ⊢
      cases ho : (SearchIndex.indexGo cfg tr ds
          (IndexBuffer.emptyBuf.push cfg d)).outcome with
      | ok out' => simp [ho, Except.map] at h
      | error e'' =>
        have he : e'' = e := by simpa [ho, Except.map] using h
        obtain ⟨bs, b, rss, hsent, htrb, hfa, hcol, hpre⟩ :=
          ih (IndexBuffer.emptyBuf.push cfg d) e'' ho
        refine ⟨st.pending :: bs, b, rs :: rss, by simp [hsent],
          he ▸ htrb, List.Forall₂.cons htr' hfa, by simp [hcol], ?_⟩
        simp only [IndexBuffer.push, IndexBuffer.emptyBuf] at hpre
        have : st.pending ++ (bs ++ [b]).flatten <+:
            st.pending ++ ([d] ++ ds) := by
          exact (List.prefix_append_right_inj st.pending).mpr
            (by simpa using hpre)
        simpa [List.append_assoc] using this
    · have he : e' = e := by simpa [SearchIndex.indexGo, hA] using h
      refine ⟨[], st.pending, [], by simp [SearchIndex.indexGo, hA],
        he ▸ htr', List.Forall₂.nil, by simp [SearchIndex.indexGo, hA], ?_⟩
      simp

/-- C3.  If any `add` or the final flush of a batch-mode `index` call hits
a transport error, the operation fails as a whole: the caller receives an
error (and no result list), the error is the one of the single failing
transport call, every transport call before it succeeded (so the returned
error is the first one encountered) and none was attempted after it, the
documents submitted to the transport form a prefix of the input (no
document after the failing batch is submitted), and the internal results
array still holds exactly the earlier batches' results — which are not
returned to the caller. -/
theorem SearchIndex.index_error_isolation {Doc R E : Type}
    (cfg : BatchConfig Doc) (tr : List Doc → Except E (List R))
    (docs : List Doc) (e : E)
    (h : (SearchIndex.index cfg tr docs).outcome = .error e) :
    ∃ bs b rss,
      (SearchIndex.index cfg tr docs).sent = bs ++ [b] ∧
      tr b = .error e ∧
      List.Forall₂ (fun b' rs => tr b' = .ok rs) bs rss ∧
      (SearchIndex.index cfg tr docs).collected = rss.flatten ∧
      (bs ++ [b]).flatten <+: docs := by
  obtain ⟨bs, b, rss, hsent, htrb, hfa, hcol, hpre⟩ :=
    SearchIndex.indexGo_error cfg tr docs IndexBuffer.emptyBuf e h
  exact ⟨bs, b, rss, hsent, htrb, hfa, hcol, by
    simpa [IndexBuffer.emptyBuf] using hpre⟩

/-- Witness for C3: submitting `[1, 2, 3]` with limits `(2, 1000)` against
a transport that rejects two-document batches fails on the first flushed
batch `[1, 2]`; nothing was collected, nothing was sent afterwards. -/
theorem SearchIndex.index_error_isolation_witness :
    ∃ bs b rss,
      (SearchIndex.index (natSizeCfg 2 1000) failOnPairTransport
        [1, 2, 3]).sent = bs ++ [b] ∧
      failOnPairTransport b = .error 9 ∧
      List.Forall₂ (fun b' rs => failOnPairTransport b' = .ok rs) bs rss ∧
      (SearchIndex.index (natSizeCfg 2 1000) failOnPairTransport
        [1, 2, 3]).collected = rss.flatten ∧
      (bs ++ [b]).flatten <+: [1, 2, 3] :=
  SearchIndex.index_error_isolation (natSizeCfg 2 1000) failOnPairTransport
    [1, 2, 3] 9 rfl

/- The streaming adapter's emission pattern. -/

/-- C4, counterexample.  In the spec's stream scenario (limits `(2, 1000)`,
write `d1 = 1`, write `d2 = 2`, close, transport answering `n + 100`), the
consumer does NOT observe exactly one data emission `[r1, r2]`: the adapter
pushes the (empty) result list of every processed write downstream, so the
observed emissions are `[], [], [r1, r2]`. -/
theorem IndexStream.single_emission_counterexample :
    ¬ ((IndexStream.run (natSizeCfg 2 1000) okTransport [1, 2]).emitted
        = [[101, 102]] ∧
      (IndexStream.run (natSizeCfg 2 1000) okTransport [1, 2]).terminal
        = none) := by
  intro h
  have hev : (IndexStream.run (natSizeCfg 2 1000) okTransport
      [1, 2]).emitted = [[], [], [101, 102]] := rfl
  rw [hev] at h
  exact absurd h.1 (by decide)

/-- C4, amended.  On each incoming document the adapter forwards it to
`IndexBuffer.add` and pushes the returned (possibly empty) result list
downstream before accepting the next input item.  With `maxBatchCount = 2`
and two documents fitting the byte cap, writing `d1` then `d2` then closing
the stream yields the emissions `[], [], [r1, r2]` followed by a clean
end-of-stream signal: the two writes emit empty lists (no flush is
triggered — the batch `[d1, d2]` is flushed by the close), the single
non-empty emission is `[r1, r2]`, emitted before the end signal, and the
transport is called exactly once, with `[d1, d2]`. -/
theorem IndexStream.scenario_amended {Doc R E : Type} (B : Nat)
    (sz : Doc → Nat) (tr : List Doc → Except E (List R)) (d1 d2 : Doc)
    (rs : List R) (h1 : sz d1 ≤ B) (h2 : sz d1 + sz d2 ≤ B)
    (htr : tr [d1, d2] = .ok rs) :
    IndexStream.run ⟨2, B, sz⟩ tr [d1, d2] =
      ⟨[[], [], rs], none, [[d1, d2]]⟩ := by
  simp [IndexStream.run, IndexStream.writeAll, IndexBuffer.add,
    IndexBuffer.flush, IndexBuffer.push, IndexBuffer.emptyBuf,
    Nat.not_lt.mpr h1, Nat.not_lt.mpr h2, htr]

/-- Witness for the amended C4: the concrete scenario evaluates to the
stated emissions, clean end and single transport call. -/
theorem IndexStream.scenario_amended_witness :
    IndexStream.run (natSizeCfg 2 1000) okTransport [1, 2] =
      ⟨[[], [], [101, 102]], none, [[1, 2]]⟩ :=
  IndexStream.scenario_amended 1000 (fun n => n) okTransport 1 2 [101, 102]
    (by decide) (by decide) rfl

/- Error handling of the streaming adapter. -/

/-- Splitting a stream's write phase after a successfully written block:
the remaining writes continue from the reached state, and the block's
emissions and attempted batches stay in place. -/
lemma IndexStream.writeAll_append_ok {Doc R E : Type} (cfg : BatchConfig Doc)
    (tr : List Doc → Except E (List R)) :
    ∀ (ws₁ ws₂ : List Doc) (st st₁ : IndexBuffer Doc) (em₁ : List (List R))
      (sd₁ : List (List Doc)),
      IndexStream.writeAll cfg tr ws₁ st = (.ok st₁, em₁, sd₁) →
      IndexStream.writeAll cfg tr (ws₁ ++ ws₂) st =
        ((IndexStream.writeAll cfg tr ws₂ st₁).1,
          em₁ ++ (IndexStream.writeAll cfg tr ws₂ st₁).2.1,
          sd₁ ++ (IndexStream.writeAll cfg tr ws₂ st₁).2.2) := by
  intro ws₁
  induction ws₁ with
  | nil =>
    intro ws₂ st st₁ em₁ sd₁ h
    simp only [IndexStream.writeAll] at h
    injection h with h1 h2
    injection h2 with h2 h3
    injection h1 with h1
    subst h1
    simp [← h2, ← h3]
  | cons d ws₁ ih =>
    intro ws₂ st st₁ em₁ sd₁ h
    rcases ha : IndexBuffer.add cfg tr st d with ⟨o, log⟩
    cases o with
    | ok p =>
      rcases p with ⟨rs, st'⟩
      simp only [IndexStream.writeAll, ha] at h
      injection h with h1 h2
      injection h2 with h2 h3
      have hrec := ih ws₂ st' st₁
        (IndexStream.writeAll cfg tr ws₁ st').2.1
        (IndexStream.writeAll cfg tr ws₁ st').2.2
        (by rw [← h1])
      rw [List.cons_append]
      simp only [IndexStream.writeAll, ha, hrec]
      rw [← h2, ← h3]
      simp [List.append_assoc]
    | error e =>
      simp only [IndexStream.writeAll, ha] at h
      injection h with h1 h2
      simp at h1

/-- C5.  If the Flush Transport fails during a stream lifetime — either at
a flush triggered by an `add` of a further write `w`, or at the
end-of-stream flush — the adapter signals that error downstream and stops:
the lifetime's outcome carries the error as terminal signal, the emitted
chunks are exactly those from before the failure (not retracted), the
attempted batches are exactly those from before the failure plus the one
failing batch, and — in the mid-stream case — the outcome is independent of
all writes `ws₂` after the failing one: no further input is accepted and no
further flush is attempted. -/
theorem IndexStream.error_stops {Doc R E : Type} (cfg : BatchConfig Doc)
    (tr : List Doc → Except E (List R)) (ws₁ : List Doc) (w : Doc)
    (ws₂ : List Doc) (st₁ : IndexBuffer Doc) (em₁ : List (List R))
    (sd₁ : List (List Doc)) (e : E)
    (hph : IndexStream.writeAll cfg tr ws₁ IndexBuffer.emptyBuf
      = (.ok st₁, em₁, sd₁)) :
    (∀ log₂, IndexBuffer.add cfg tr st₁ w = (.error e, log₂) →
      IndexStream.run cfg tr (ws₁ ++ w :: ws₂) = ⟨em₁, some e, sd₁ ++ log₂⟩) ∧
    (∀ log₂, IndexBuffer.flush tr st₁ = (.error e, log₂) →
      IndexStream.run cfg tr ws₁ = ⟨em₁, some e, sd₁ ++ log₂⟩) := by
  constructor
  · intro log₂ ha
    have hsplit := IndexStream.writeAll_append_ok cfg tr ws₁ (w :: ws₂)
      IndexBuffer.emptyBuf st₁ em₁ sd₁ hph
    have hstep : IndexStream.writeAll cfg tr (w :: ws₂) st₁
        = (.error e, [], log₂) := by
      simp [IndexStream.writeAll, ha]
    rw [hstep] at hsplit
    simp only at hsplit
    simp [IndexStream.run, hsplit]
  · intro log₂ hf
    simp [IndexStream.run, hph, hf]

/-- Witness for C5: with `maxBatchCount = 1` and a transport rejecting the
batch `[2]`, the writes `1, 2` succeed (emitting `[]` and `[101]`), the
write of `3` triggers the failing flush of `[2]`, and the whole lifetime —
regardless of the further write `4` — ends with the error signal, the
pre-failure emissions and the attempted batches `[1], [2]`. -/
theorem IndexStream.error_stops_witness :
    IndexStream.run (natSizeCfg 1 1000) failOnTwoTransport [1, 2, 3, 4] =
      ⟨[[], [101]], some 7, [[1], [2]]⟩ :=
  (IndexStream.error_stops (natSizeCfg 1 1000) failOnTwoTransport [1, 2] 3
    [4] ⟨[2], 2⟩ [[], [101]] [[1]] 7 rfl).1 [[2]] rfl

/- Flush semantics. -/

/-- C7.  Calling `flush()` on an accumulator whose pending batch is empty
returns the empty result list, leaves the accumulator unchanged and makes
no transport call (the recorded transport log is empty) — an idempotent
no-op; on a non-empty pending batch, `flush()` transmits exactly that batch
via the transport, resets the pending batch to empty and returns the
transport's results. -/
theorem IndexBuffer.flush_spec {Doc R E : Type}
    (tr : List Doc → Except E (List R)) (st : IndexBuffer Doc) :
    (st.pending = [] → IndexBuffer.flush tr st = (.ok ([], st), [])) ∧
    (∀ rs, st.pending ≠ [] → tr st.pending = .ok rs →
      IndexBuffer.flush tr st
        = (.ok (rs, IndexBuffer.emptyBuf), [st.pending])) :=
  ⟨fun hp => IndexBuffer.flush_empty_pending tr st hp,
    fun rs hp htr => IndexBuffer.flush_ok_of tr st rs hp htr⟩

/-- Witness for C7: flushing the empty accumulator returns `[]` with no
transport call; flushing a one-document batch sends it and resets. -/
theorem IndexBuffer.flush_spec_witness :
    IndexBuffer.flush okTransport (@IndexBuffer.emptyBuf Nat)
        = (.ok ([], IndexBuffer.emptyBuf), []) ∧
      IndexBuffer.flush okTransport (⟨[5], 5⟩ : IndexBuffer Nat)
        = (.ok ([105], IndexBuffer.emptyBuf), [[5]]) :=
  ⟨(IndexBuffer.flush_spec okTransport IndexBuffer.emptyBuf).1 rfl,
    (IndexBuffer.flush_spec okTransport ⟨[5], 5⟩).2 [105] (by simp) rfl⟩

/- Origin of the batch limits. -/

/-- C8, counterexample.  The batch limits are not supplied by the caller
when the accumulator is constructed: the constructor as invoked at both
call sites in the sources receives only the flush callback, so two
different callers — here two different transports — obtain accumulators
with the same fixed internal limits (1000 operations, 16777216 bytes). -/
theorem IndexBuffer.new_caller_limits_counterexample :
    (IndexBuffer.new (fun n => n) okTransport).1.maxBatchCount = 1000 ∧
      (IndexBuffer.new (fun n => n) okTransport).1.maxBatchBytes = 16777216 ∧
      (IndexBuffer.new (fun n => n) failOnTwoTransport).1
        = (IndexBuffer.new (fun n => n) okTransport).1 ∧
      okTransport ≠ failOnTwoTransport := by
  refine ⟨rfl, rfl, rfl, fun h => ?_⟩
  have := congrFun h [2]
  simp [okTransport, failOnTwoTransport] at this

/-- C8, amended.  `maxBatchCount` and `maxBatchBytes` are fixed internal
constants of the accumulator (modelled from the spec's example
remote-service limits: 1000 operations and 16 MB): the constructor, as
invoked at its two call sites in the sources, receives only the flush
callback, and the limits of the constructed instance do not depend on the
caller's argument. -/
theorem IndexBuffer.new_fixed_limits {Doc R E : Type} (sz : Doc → Nat)
    (tr tr' : List Doc → Except E (List R)) :
    IndexBuffer.new sz tr
        = (⟨MAX_INDEXING_COUNT, MAX_INDEXING_BYTES, sz⟩,
            IndexBuffer.emptyBuf) ∧
      (IndexBuffer.new sz tr).1 = (IndexBuffer.new sz tr').1 :=
  ⟨rfl, rfl⟩

/- Shape of the flush transport's requests. -/

/-- C9.  Every flush request issued by either the batch-mode operation or
the indexing stream is an HTTP POST to `/indexes/{indexName}/docs/index`
with the `content-type: application/json` header and the pending batch as
body; and the per-document results a flush yields are exactly the
response's `result.value` list. -/
theorem SearchIndex.flushRequest_shape {Doc R E : Type} (name : String)
    (data : List Doc)
    (requester : SearchRequest Doc →
      Except E (AzureSearchResponse (IndexingResults R))) :
    SearchResource.prefixRequest "indexes" name (SearchIndex.flushRequest data)
        = ⟨"post", "/indexes/" ++ name ++ "/docs/index",
            [("content-type", "application/json")], data⟩ ∧
      IndexStream.prefixRequest name (IndexStream.flushRequest data)
        = ⟨"post", "/indexes/" ++ name ++ "/docs/index",
            [("content-type", "application/json")], data⟩ ∧
      (∀ resp, requester (SearchResource.prefixRequest "indexes" name
          (SearchIndex.flushRequest data)) = .ok resp →
        SearchIndex.flushTransport requester name data
          = .ok resp.result.value) ∧
      (∀ resp, requester (IndexStream.prefixRequest name
          (IndexStream.flushRequest data)) = .ok resp →
        IndexStream.flushTransport requester name data
          = .ok resp.result.value) := by
  refine ⟨?_, ?_, ?_, ?_⟩
  · simp only [SearchResource.prefixRequest, SearchIndex.flushRequest]
    congr 1
  · rfl
  · intro resp h
    simp [SearchIndex.flushTransport, h, Except.map]
  · intro resp h
    simp [IndexStream.flushTransport, h, Except.map]

/-- Witness for C9: a concrete requester recognising the exact POST request
to `/indexes/myindex/docs/index` answers the flush of `[1, 2]` with its
`result.value` list. -/
theorem SearchIndex.flushRequest_shape_witness :
    SearchIndex.flushTransport
        (fun req : SearchRequest Nat =>
          if req = ⟨"post", "/indexes/myindex/docs/index",
              [("content-type", "application/json")], [1, 2]⟩ then
            .ok ⟨⟨[201, 202]⟩, 200⟩
          else (.error 4 : Except Nat (AzureSearchResponse (IndexingResults Nat))))
        "myindex" [1, 2] = .ok [201, 202] :=
  (SearchIndex.flushRequest_shape "myindex" [1, 2] _).2.2.1
    ⟨⟨[201, 202]⟩, 200⟩ (by rfl)

/- Characterization of the date pattern. -/

/-- `digitsThen` succeeds exactly on inputs that start with `n` digits,
returning the remainder. -/
lemma digitsThen_eq_some :
    ∀ (n : Nat) (cs rest : List Char),
      digitsThen n cs = some rest ↔
        ∃ ds, cs = ds ++ rest ∧ ds.length = n ∧ ∀ c ∈ ds, c.isDigit := by
  intro n
  induction n with
  | zero =>
    intro cs rest
    constructor
    · intro h
      simp only [digitsThen] at h
      injection h with h
      exact ⟨[], by simp [h], rfl, by simp⟩
    · rintro ⟨ds, hcs, hlen, _⟩
      have : ds = [] := List.eq_nil_of_length_eq_zero hlen
      subst this
      simp [digitsThen, hcs]
  | succ n ih =>
    intro cs rest
    cases cs with
    | nil =>
      constructor
      · intro h
        simp [digitsThen] at h
      · rintro ⟨ds, hcs, hlen, _⟩
        have := congrArg List.length hcs
        simp [hlen] at this
        omega
    | cons c cs' =>
      constructor
      · intro h
        simp only [digitsThen] at h
        by_cases hd : c.isDigit
        · rw [if_pos hd] at h
          obtain ⟨ds, hcs, hlen, hdz⟩ := (ih cs' rest).mp h
          refine ⟨c :: ds, by simp [hcs], by simp [hlen], ?_⟩
          intro x hx
          rcases List.mem_cons.mp hx with h1 | h2
          · exact h1 ▸ hd
          · exact hdz x h2
        · rw [if_neg hd] at h
          exact absurd h (by simp)
      · rintro ⟨ds, hcs, hlen, hdz⟩
        cases ds with
        | nil => simp at hlen
        | cons d ds' =>
          injection hcs with hc hcs'
          subst hc
          have hd : c.isDigit := hdz c (by simp)
          simp only [digitsThen, if_pos hd]
          exact (ih cs' rest).mpr
            ⟨ds', hcs', by simpa using hlen,
              fun x hx => hdz x (List.mem_cons_of_mem _ hx)⟩

/-- `expectChar` succeeds exactly on inputs starting with the expected
character. -/
lemma expectChar_eq_some (a : Char) (cs rest : List Char) :
    expectChar a cs = some rest ↔ cs = a :: rest := by
  cases cs with
  | nil => simp [expectChar]
  | cons c cs' =>
    simp only [expectChar]
    by_cases h : c = a
    · subst h
      simp
    · simp [h]

/-- `fracDigitsZ` accepts exactly one to three digits followed by the
final `Z`. -/
lemma fracDigitsZ_eq_true (l : List Char) :
    fracDigitsZ l = true ↔
      ∃ ds, l = ds ++ ['Z'] ∧ 1 ≤ ds.length ∧ ds.length ≤ 3 ∧
        ∀ c ∈ ds, c.isDigit := by
  constructor
  · intro h
    rcases l with _ | ⟨a, _ | ⟨b, _ | ⟨c, _ | ⟨d, _ | ⟨e, tl⟩⟩⟩⟩⟩
    · simp [fracDigitsZ] at h
    · simp [fracDigitsZ] at h
    · simp only [fracDigitsZ, Bool.and_eq_true, beq_iff_eq] at h
      obtain ⟨h1, h2⟩ := h
      refine ⟨[a], by simp [h2], by simp, by simp, ?_⟩
      intro x hx
      rcases List.mem_singleton.mp hx with rfl
      exact h1
    · simp only [fracDigitsZ, Bool.and_eq_true, beq_iff_eq] at h
      obtain ⟨⟨h1, h2⟩, h3⟩ := h
      refine ⟨[a, b], by simp [h3], by simp, by simp, ?_⟩
      intro x hx
      rcases List.mem_cons.mp hx with rfl | hx
      · exact h1
      · rcases List.mem_singleton.mp hx with rfl
        exact h2
    · simp only [fracDigitsZ, Bool.and_eq_true, beq_iff_eq] at h
      obtain ⟨⟨⟨h1, h2⟩, h3⟩, h4⟩ := h
      refine ⟨[a, b, c], by simp [h4], by simp, by simp, ?_⟩
      intro x hx
      rcases List.mem_cons.mp hx with rfl | hx
      · exact h1
      · rcases List.mem_cons.mp hx with rfl | hx
        · exact h2
        · rcases List.mem_singleton.mp hx with rfl
          exact h3
    · simp [fracDigitsZ] at h
  · rintro ⟨ds, rfl, h1, h2, h3⟩
    rcases ds with _ | ⟨x, _ | ⟨y, _ | ⟨z, _ | ⟨w, t⟩⟩⟩⟩
    · simp at h1
    · simp [fracDigitsZ, h3 x (by simp)]
    · simp [fracDigitsZ, h3 x (by simp), h3 y (by simp)]
    · simp [fracDigitsZ, h3 x (by simp), h3 y (by simp), h3 z (by simp)]
    · exfalso
      have h4 : (x :: y :: z :: w :: t).length ≤ 3 := h2
      simp only [List.length_cons] at h4
      omega

/-- `fracTail` accepts exactly the lone final `Z` or a dot, one to three
digits and the final `Z`. -/
lemma fracTail_eq_true (cs : List Char) :
    fracTail cs = true ↔
      (cs = ['Z'] ∨ ∃ ds, cs = '.' :: (ds ++ ['Z']) ∧ 1 ≤ ds.length ∧
        ds.length ≤ 3 ∧ ∀ c ∈ ds, c.isDigit) := by
  rcases cs with _ | ⟨c, _ | ⟨d, t⟩⟩
  · simp [fracTail]
  · simp only [fracTail, beq_iff_eq]
    constructor
    · intro h
      exact Or.inl (by simp [h])
    · rintro (h | ⟨ds, h, h1, _, _⟩)
      · injection h with hc
      · exfalso
        have := congrArg List.length h
        simp at this
  · simp only [fracTail, Bool.and_eq_true, beq_iff_eq]
    constructor
    · rintro ⟨h1, h2⟩
      obtain ⟨ds, hds, ha, hb, hc'⟩ := (fracDigitsZ_eq_true (d :: t)).mp h2
      subst h1
      exact Or.inr ⟨ds, by rw [hds], ha, hb, hc'⟩
    · rintro (h | ⟨ds, h, h1, h2, h3⟩)
      · simp at h
      · injection h with hc ht
        exact ⟨hc, (fracDigitsZ_eq_true (d :: t)).mpr ⟨ds, ht, h1, h2, h3⟩⟩

/-- Unfolding one `Option` bind. -/
lemma optBind_eq_some {α β : Type} (o : Option α) (f : α → Option β) (b : β) :
    (o >>= f) = some b ↔ ∃ a, o = some a ∧ f a = some b := by
  cases o <;> simp

/-- The date-time prefix matcher succeeds exactly on inputs of the shape
`\d{4}-\d{2}-\d{2}T\d{2}:\d{2}:\d{2}` followed by the remainder. -/
lemma dateTimeTail_eq_some (cs rest : List Char) :
    dateTimeTail cs = some rest ↔
      ∃ y mo dd hh mi sec : List Char,
        cs = y ++ '-' :: (mo ++ '-' :: (dd ++ 'T' ::
          (hh ++ ':' :: (mi ++ ':' :: (sec ++ rest))))) ∧
        y.length = 4 ∧ mo.length = 2 ∧ dd.length = 2 ∧ hh.length = 2 ∧
        mi.length = 2 ∧ sec.length = 2 ∧
        ∀ c ∈ y ++ mo ++ dd ++ hh ++ mi ++ sec, c.isDigit := by
  constructor
  · intro h
    unfold dateTimeTail at h
    obtain ⟨t10, h10, h11⟩ := (optBind_eq_some _ _ _).mp h
    obtain ⟨t9, h9, h10'⟩ := (optBind_eq_some _ _ _).mp h10
    obtain ⟨t8, h8, h9'⟩ := (optBind_eq_some _ _ _).mp h9
    obtain ⟨t7, h7, h8'⟩ := (optBind_eq_some _ _ _).mp h8
    obtain ⟨t6, h6, h7'⟩ := (optBind_eq_some _ _ _).mp h7
    obtain ⟨t5, h5, h6'⟩ := (optBind_eq_some _ _ _).mp h6
    obtain ⟨t4, h4, h5'⟩ := (optBind_eq_some _ _ _).mp h5
    obtain ⟨t3, h3, h4'⟩ := (optBind_eq_some _ _ _).mp h4
    obtain ⟨t2, h2, h3'⟩ := (optBind_eq_some _ _ _).mp h3
    obtain ⟨t1, h1, h2'⟩ := (optBind_eq_some _ _ _).mp h2
    obtain ⟨y, hcs, hy, hyd⟩ := (digitsThen_eq_some 4 cs t1).mp h1
    rw [expectChar_eq_some] at h2'
    obtain ⟨mo, ht2, hmo, hmod⟩ := (digitsThen_eq_some 2 t2 t3).mp h3'
    rw [expectChar_eq_some] at h4'
    obtain ⟨dd, ht4, hdd, hddd⟩ := (digitsThen_eq_some 2 t4 t5).mp h5'
    rw [expectChar_eq_some] at h6'
    obtain ⟨hh, ht6, hhh, hhhd⟩ := (digitsThen_eq_some 2 t6 t7).mp h7'
    rw [expectChar_eq_some] at h8'
    obtain ⟨mi, ht8, hmi, hmid⟩ := (digitsThen_eq_some 2 t8 t9).mp h9'
    rw [expectChar_eq_some] at h10'
    obtain ⟨sec, ht10, hsec, hsecd⟩ := (digitsThen_eq_some 2 t10 rest).mp h11
    subst ht10
    subst h10'
    subst ht8
    subst h8'
    subst ht6
    subst h6'
    subst ht4
    subst h4'
    subst ht2
    subst h2'
    refine ⟨y, mo, dd, hh, mi, sec, hcs, hy, hmo, hdd, hhh, hmi, hsec, ?_⟩
    intro c hc
    simp only [List.mem_append] at hc
    rcases hc with ((((hc | hc) | hc) | hc) | hc) | hc
    · exact hyd c hc
    · exact hmod c hc
    · exact hddd c hc
    · exact hhhd c hc
    · exact hmid c hc
    · exact hsecd c hc
  · rintro ⟨y, mo, dd, hh, mi, sec, hcs, hy, hmo, hdd, hhh, hmi, hsec, hdig⟩
    have hyd : ∀ c ∈ y, c.isDigit := fun c hc => hdig c
      (by simp only [List.mem_append]
          exact Or.inl (Or.inl (Or.inl (Or.inl (Or.inl hc)))))
    have hmod : ∀ c ∈ mo, c.isDigit := fun c hc => hdig c
      (by simp only [List.mem_append]
          exact Or.inl (Or.inl (Or.inl (Or.inl (Or.inr hc)))))
    have hddd : ∀ c ∈ dd, c.isDigit := fun c hc => hdig c
      (by simp only [List.mem_append]
          exact Or.inl (Or.inl (Or.inl (Or.inr hc))))
    have hhhd : ∀ c ∈ hh, c.isDigit := fun c hc => hdig c
      (by simp only [List.mem_append]
          exact Or.inl (Or.inl (Or.inr hc)))
    have hmid : ∀ c ∈ mi, c.isDigit := fun c hc => hdig c
      (by simp only [List.mem_append]
          exact Or.inl (Or.inr hc))
    have hsecd : ∀ c ∈ sec, c.isDigit := fun c hc => hdig c
      (by simp only [List.mem_append]
          exact Or.inr hc)
    unfold dateTimeTail
    rw [hcs]
    have s1 : digitsThen 4 (y ++ '-' :: (mo ++ '-' :: (dd ++ 'T' ::
        (hh ++ ':' :: (mi ++ ':' :: (sec ++ rest)))))) =
        some ('-' :: (mo ++ '-' :: (dd ++ 'T' ::
          (hh ++ ':' :: (mi ++ ':' :: (sec ++ rest)))))) :=
      (digitsThen_eq_some 4 _ _).mpr ⟨y, rfl, hy, hyd⟩
    have s3 : digitsThen 2 (mo ++ '-' :: (dd ++ 'T' ::
        (hh ++ ':' :: (mi ++ ':' :: (sec ++ rest))))) =
        some ('-' :: (dd ++ 'T' ::
          (hh ++ ':' :: (mi ++ ':' :: (sec ++ rest))))) :=
      (digitsThen_eq_some 2 _ _).mpr ⟨mo, rfl, hmo, hmod⟩
    have s5 : digitsThen 2 (dd ++ 'T' ::
        (hh ++ ':' :: (mi ++ ':' :: (sec ++ rest)))) =
        some ('T' :: (hh ++ ':' :: (mi ++ ':' :: (sec ++ rest)))) :=
      (digitsThen_eq_some 2 _ _).mpr ⟨dd, rfl, hdd, hddd⟩
    have s7 : digitsThen 2 (hh ++ ':' :: (mi ++ ':' :: (sec ++ rest))) =
        some (':' :: (mi ++ ':' :: (sec ++ rest))) :=
      (digitsThen_eq_some 2 _ _).mpr ⟨hh, rfl, hhh, hhhd⟩
    have s9 : digitsThen 2 (mi ++ ':' :: (sec ++ rest)) =
        some (':' :: (sec ++ rest)) :=
      (digitsThen_eq_some 2 _ _).mpr ⟨mi, rfl, hmi, hmid⟩
    have s11 : digitsThen 2 (sec ++ rest) = some rest :=
      (digitsThen_eq_some 2 _ _).mpr ⟨sec, rfl, hsec, hsecd⟩
    simp [s1, s3, s5, s7, s9, s11, expectChar]

/-- `RE_DATE` accepts exactly the strings of the specified date shape. -/
lemma matchesDateRe_eq_true (s : String) :
    matchesDateRe s = true ↔ specDateShape s := by
  unfold matchesDateRe specDateShape
  cases hdt : dateTimeTail s.data with
  | none =>
    constructor
    · intro h
      simp at h
    · rintro ⟨y, mo, dd, hh, mi, sec, frac, hcs, hy, hmo, hdd, hhh, hmi,
        hsec, hdig, hfrac⟩
      exfalso
      have hsome : dateTimeTail s.data = some frac :=
        (dateTimeTail_eq_some s.data frac).mpr
          ⟨y, mo, dd, hh, mi, sec, hcs, hy, hmo, hdd, hhh, hmi, hsec, hdig⟩
      rw [hdt] at hsome
      exact absurd hsome (by simp)
  | some rest =>
    constructor
    · intro h
      obtain ⟨y, mo, dd, hh, mi, sec, hcs, hy, hmo, hdd, hhh, hmi, hsec,
        hdig⟩ := (dateTimeTail_eq_some s.data rest).mp hdt
      exact ⟨y, mo, dd, hh, mi, sec, rest, hcs, hy, hmo, hdd, hhh, hmi,
        hsec, hdig, (fracTail_eq_true rest).mp h⟩
    · rintro ⟨y, mo, dd, hh, mi, sec, frac, hcs, hy, hmo, hdd, hhh, hmi,
        hsec, hdig, hfrac⟩
      have hsome : dateTimeTail s.data = some frac :=
        (dateTimeTail_eq_some s.data frac).mpr
          ⟨y, mo, dd, hh, mi, sec, hcs, hy, hmo, hdd, hhh, hmi, hsec, hdig⟩
      rw [hdt] at hsome
      injection hsome with hfr
      subst hfr
      exact (fracTail_eq_true rest).mpr hfrac

/-- With `parseDates` off, the reviver is the identity on every parsed
value. -/
lemma reviveTree_false (v : JsonValue) : reviveTree false v = v := by
  refine @JsonValue.rec (fun v => reviveTree false v = v)
    (fun l => reviveList false l = l) (fun o => reviveObj false o = o)
    ?_ ?_ ?_ ?_ ?_ ?_ ?_ ?_ ?_ ?_ ?_ v
  · intro s
    simp [reviveTree]
  · intro s
    simp [reviveTree]
  · intro n
    simp [reviveTree]
  · intro b
    simp [reviveTree]
  · simp [reviveTree]
  · intro l hl
    simp [reviveTree, hl]
  · intro o ho
    simp [reviveTree, ho]
  · simp [reviveList]
  · intro v' l hv hl
    simp [reviveList, hv, hl]
  · simp [reviveObj]
  · intro k v' o hv ho
    simp [reviveObj, hv, ho]

/-- C10.  For `search`, `suggest` and `lookup`: an unset `parseDates`
option defaults to `true` (a caller-set value is kept); the pattern
`RE_DATE` accepts exactly the strings whose entire text is
`YYYY-MM-DDTHH:MM:SS`, an optional fractional second of one to three
digits, and a literal trailing `Z` (`specDateShape`); with `parseDates` on,
every string value of the parsed response matching the pattern is replaced
by a `Date` built from it while non-matching strings stay strings, and the
reviver recurses through arrays and objects; with `parseDates` off, every
value is returned unchanged. -/
theorem SearchIndex.parseDates_spec :
    effectiveParseDates none = true ∧
      (∀ b, effectiveParseDates (some b) = b) ∧
      (∀ s : String, matchesDateRe s = true ↔ specDateShape s) ∧
      (∀ s, matchesDateRe s = true →
        reviveTree true (.str s) = .date s) ∧
      (∀ s, matchesDateRe s = false →
        reviveTree true (.str s) = .str s) ∧
      (∀ l, reviveTree true (.arr l) = .arr (reviveList true l)) ∧
      (∀ o, reviveTree true (.obj o) = .obj (reviveObj true o)) ∧
      (∀ v, reviveTree false v = v) := by
  refine ⟨rfl, fun b => rfl, matchesDateRe_eq_true, ?_, ?_,
    fun l => rfl, fun o => rfl, reviveTree_false⟩
  · intro s h
    simp [reviveTree, h]
  · intro s h
    simp [reviveTree, h]

/-- Witness for C10: a conforming date string is replaced by a `Date`, a
non-conforming string is kept. -/
theorem SearchIndex.parseDates_spec_witness :
    reviveTree true (.str "2020-01-02T03:04:05.123Z")
        = .date "2020-01-02T03:04:05.123Z" ∧
      reviveTree true (.str "not a date") = .str "not a date" :=
  ⟨SearchIndex.parseDates_spec.2.2.2.1 "2020-01-02T03:04:05.123Z" (by decide),
    SearchIndex.parseDates_spec.2.2.2.2.1 "not a date" (by decide)⟩
